import Mathlib

/-!
Shallow embedding of the timeline layout engine of `src/PencilCanvas.js`
(class `TimelineRenderer`).

Modelling conventions:
* JS numbers are modelled as `ℚ` (exact rationals); pixel outputs as `Int`.
* Dates are modelled by their parsed numeric value (`new Date(...)` valueOf,
  an integer of milliseconds); `parseDate` is therefore the identity on these
  integers, and error messages interpolate the numeric date values.
* A JS string field that may be `undefined` or `""` (both falsy) is modelled
  as a `String` with `""` standing for both; an optional numeric field is an
  `Option ℚ` (`none` = `undefined`/`NaN`, both falsy, as is `some 0`).
* `throw` is modelled with `Except String`; a thrown error aborts the pass.
* JS object identity (epic member records are shared between `allProjects`,
  `epic.projects` and the theme blocks, and their `y` field is mutated in
  place) is modelled by a reference number `ref` given to every positioned
  project, together with an explicit assignment map `Nat → Int` for `y`;
  the scene is materialized from the final map, mirroring the state of the
  shared objects after `resolveCollisionsWithThemes` returns.
-/

namespace PencilTimeline

/-- `this.margin.top` of `TimelineRenderer`. -/
def marginTop : Int := 120

/-- `this.margin.bottom`. -/
def marginBottom : Int := 60

/-- `this.margin.left`. -/
def marginLeft : Int := 120

/-- `this.margin.right`. -/
def marginRight : Int := 60

/-- `this.lineHeight`. -/
def lineHeight : Int := 40

/-- `this.displayWidth`: `calculateRequiredDimensions` always returns width 1200,
so the display width used by `calculateTimelinePositions` is the constant 1200. -/
def displayWidth : Int := 1200

/-- `this.displayWidth - this.margin.left - this.margin.right` as used in
`calculateTimelinePositions`. -/
def timelineWidth : ℚ := ((displayWidth - marginLeft - marginRight : Int) : ℚ)

/-- JS `Math.round`: rounds half toward positive infinity. -/
def jsRound (q : ℚ) : Int := ⌊q + 1/2⌋

/-- JS `a || b` on an optional number `a`: `undefined`, `NaN` and `0` are falsy. -/
def jsOrQ (v : Option ℚ) (w : ℚ) : ℚ :=
  match v with
  | none => w
  | some x => if x = 0 then w else x

/-- A raw project record (field `projectLines[i]` of the input document). -/
structure Project where
  name : String
  theme : String := ""
  tbeg : Int
  tend : Int
  tailEnd : Option Int := none
  color : String := ""
  pencilPressure : Option ℚ := none
  pencilThickness : Option ℚ := none
deriving DecidableEq

/-- A raw epic record. `pencilPressure` models `parseFloat(epic.pencilPressure)`
(`none` = absent or unparseable, i.e. `NaN`). -/
structure Epic where
  name : String
  theme : String := ""
  pencilPressure : Option ℚ := none
  projectLines : List Project := []
deriving DecidableEq

/-- The input document (`this.data`). -/
structure TimelineData where
  tbeg : Int
  tend : Int
  pencilPressure : Option ℚ := none
  pencilResolution : Option ℚ := none
  projectLines : List Project := []
  epics : List Epic := []
deriving DecidableEq

/-- The record produced by `processProject`, with the spread raw fields that the
rest of the pipeline reads. `ref` models the JS object reference (see header). -/
structure PositionedProject where
  ref : Nat := 0
  name : String
  theme : String
  x1 : Int
  x2 : Int
  x3 : Option Int
  y : Int
  startDate : Int
  endDate : Int
  tailEndDate : Option Int
  epicIndex : Option Nat
  pencilPressure : Option ℚ := none
  pencilThickness : Option ℚ := none
deriving DecidableEq

/-- The epic record pushed by `calculateTimelinePositions` (lines 424-432);
`minY`/`maxY` are set later, in `resolveCollisionsWithThemes`. -/
structure PositionedEpic where
  name : String
  theme : String
  projects : List PositionedProject
  x1 : Int
  x2 : Int
  epicIndex : Nat
  pencilPressure : ℚ
  minY : Option Int := none
  maxY : Option Int := none
deriving DecidableEq

/-- A `themeObj` built by `resolveCollisionsWithThemes`. -/
structure ThemeBlock where
  name : String
  y : Int
  height : Int
  projects : List PositionedProject
  epics : List PositionedEpic
deriving DecidableEq

/-- The value returned by `calculateTimelinePositions`. -/
structure Scene where
  projects : List PositionedProject
  epics : List PositionedEpic
  themes : List ThemeBlock
deriving DecidableEq

/-- One `themes.add(t)` step of `getUniqueThemes`: a JS `Set` keeps first
occurrences in insertion order. -/
def addTheme (acc : List String) (t : String) : List String :=
  if t ∈ acc then acc else acc ++ [t]

/-- The sequence of theme names offered to the `Set` in `getUniqueThemes`:
standalone projects first, then epics, skipping falsy (absent/empty) themes. -/
def collectedThemes (data : TimelineData) : List String :=
  (data.projectLines.map Project.theme).filter (fun t => t ≠ "")
    ++ (data.epics.map Epic.theme).filter (fun t => t ≠ "")

/-- `getUniqueThemes` (lines 444-465): collect distinct truthy themes, then
`Array.from(themes).sort()` (lexicographic ascending). -/
def getUniqueThemes (data : TimelineData) : List String :=
  List.insertionSort (fun a b => a ≤ b) ((collectedThemes data).foldl addTheme [])

/-- `calculateLabelHeight` (lines 592-598): split on spaces, two words per
line, 20 per line. -/
def calculateLabelHeight (themeName : String) : Int :=
  let words := themeName.splitOn " "
  let lines := (words.length + 1) / 2
  (lines : Int) * 20

/-- `calculateThemeContentHeight(projects, epics)` (lines 600-613). The second
argument models each epic's `projects` property: `some n` when the record has a
`projects` array of length `n`, `none` when reading `epic.projects` yields
`undefined` (the case for raw input epics, which carry `projectLines` instead). -/
def calculateThemeContentHeight (projectCount : Nat) (epicProjectCounts : List (Option Nat)) : Int :=
  let totalLines := projectCount + (epicProjectCounts.map (fun c => c.getD 0)).sum
  max 80 ((totalLines : Int) * lineHeight)

/-- `getThemeContent` (lines 240-263): raw standalone projects and raw epics
whose `theme` field is strictly equal (`===`) to the given name. -/
def getThemeContent (data : TimelineData) (themeName : String) : List Project × List Epic :=
  (data.projectLines.filter (fun p => p.theme == themeName),
   data.epics.filter (fun e => e.theme == themeName))

/-- The per-theme summand of `calculateRequiredDimensions` (lines 224-230). The
epics obtained from `getThemeContent` are raw input records without a
`projects` property, hence each contributes `none` to
`calculateThemeContentHeight`. -/
def themeHeightFor (data : TimelineData) (theme : String) : Int :=
  let tc := getThemeContent data theme
  let labelHeight := calculateLabelHeight theme
  let contentHeight :=
    calculateThemeContentHeight tc.1.length (tc.2.map (fun _ => (none : Option Nat)))
  max (labelHeight + 20) (contentHeight + 40)

/-- `calculateRequiredDimensions` (lines 213-238), for loaded data. -/
def calculateRequiredDimensions (data : TimelineData) : Int × Int :=
  let requiredWidth : Int := 1200
  let themes := getUniqueThemes data
  let base := marginTop + marginBottom + 100
  let withThemes := themes.foldl (fun acc t => acc + themeHeightFor data t) base
  let totalHeight := withThemes + 200
  (requiredWidth, max 800 totalHeight)

/-- The message thrown for an invalid date range (line 474). -/
def rangeMsg (p : Project) : String :=
  "Invalid date range for project \"" ++ p.name ++ "\": end date (" ++ toString p.tend
    ++ ") is before start date (" ++ toString p.tbeg ++ ")"

/-- The message thrown for an invalid tail end (line 478). -/
def tailMsg (p : Project) (t : Int) : String :=
  "Invalid tailEnd for project \"" ++ p.name ++ "\": tailEnd (" ++ toString t
    ++ ") must be after tend (" ++ toString p.tend ++ ")"

/-- The geometry part of `processProject` (lines 481-499): ratios and rounded
pixel coordinates; the tail coordinate is kept only when truthy (nonzero). -/
def positionedOf (project : Project) (startDate totalDuration : Int)
    (tlWidth : ℚ) (epicIndex : Option Nat) : PositionedProject :=
  let startFrac : ℚ := ((project.tbeg - startDate : Int) : ℚ) / ((totalDuration : Int) : ℚ)
  let endFrac : ℚ := ((project.tend - startDate : Int) : ℚ) / ((totalDuration : Int) : ℚ)
  let x1 : ℚ := (marginLeft : ℚ) + startFrac * tlWidth
  let x2 : ℚ := (marginLeft : ℚ) + endFrac * tlWidth
  let x3 : Option Int :=
    match project.tailEnd with
    | none => none
    | some t =>
      let tailFrac : ℚ := ((t - startDate : Int) : ℚ) / ((totalDuration : Int) : ℚ)
      let xt : ℚ := (marginLeft : ℚ) + tailFrac * tlWidth
      if xt = 0 then none else some (jsRound xt)
  { name := project.name, theme := project.theme,
    x1 := jsRound x1, x2 := jsRound x2, x3 := x3, y := 0,
    startDate := project.tbeg, endDate := project.tend, tailEndDate := project.tailEnd,
    epicIndex := epicIndex, pencilPressure := project.pencilPressure,
    pencilThickness := project.pencilThickness }

/-- `processProject` (lines 467-500): validate the date range, then the tail
end, then compute the positioned record. -/
def processProject (project : Project) (startDate totalDuration : Int)
    (tlWidth : ℚ) (epicIndex : Option Nat) : Except String PositionedProject :=
  if project.tend < project.tbeg then
    .error (rangeMsg project)
  else
    match project.tailEnd with
    | some t =>
      if t ≤ project.tend then .error (tailMsg project t)
      else .ok (positionedOf project startDate totalDuration tlWidth epicIndex)
    | none => .ok (positionedOf project startDate totalDuration tlWidth epicIndex)

/-- `Array.prototype.map` under a thrown exception: the first failing element
aborts the whole map. -/
def mapE (f : α → Except String β) : List α → Except String (List β)
  | [] => .ok []
  | a :: rest =>
    match f a with
    | .error e => .error e
    | .ok b =>
      match mapE f rest with
      | .error e => .error e
      | .ok bs => .ok (b :: bs)

/-- Number freshly created positioned projects with consecutive references,
modelling distinct JS object identities in creation order. -/
def assignRefs (start : Nat) : List PositionedProject → List PositionedProject
  | [] => []
  | p :: rest => { p with ref := start } :: assignRefs (start + 1) rest

/-- `Math.min(...xs)` for a nonempty list (the empty case is never reached). -/
def listMinI : List Int → Int
  | [] => 0
  | x :: xs => xs.foldl min x

/-- `Math.max(...xs)` for a nonempty list (the empty case is never reached). -/
def listMaxI : List Int → Int
  | [] => 0
  | x :: xs => xs.foldl max x

/-- JS `p.x3 || p.x2` (lines 422, 648, 720, 734): a stored `x3` of `0` is falsy. -/
def tailOrEnd (p : PositionedProject) : Int :=
  match p.x3 with
  | some v => if v = 0 then p.x2 else v
  | none => p.x2

/-- `parseFloat(epic.pencilPressure) || this.data.pencilPressure || 0.85`
(line 431). -/
def epicPencilPressure (data : TimelineData) (epic : Epic) : ℚ :=
  jsOrQ epic.pencilPressure (jsOrQ data.pencilPressure 0.85)

/-- The epic loop of `calculateTimelinePositions` (lines 406-436): process each
epic's members (inheriting the epic's theme when the member has none), number
them after `nextRef`, and record an epic entry when it has members. -/
def processEpics (data : TimelineData) (startDate totalDuration : Int) (tlWidth : ℚ) :
    Nat → Nat → List Epic → Except String (List PositionedProject × List PositionedEpic)
  | _, _, [] => .ok ([], [])
  | nextRef, epicIndex, epic :: rest =>
    match mapE (fun p => processProject p startDate totalDuration tlWidth (some epicIndex))
        epic.projectLines with
    | .error e => .error e
    | .ok members0 =>
      let members1 := members0.map (fun pp =>
        if pp.theme = "" ∧ epic.theme ≠ "" then { pp with theme := epic.theme } else pp)
      let members := assignRefs nextRef members1
      match processEpics data startDate totalDuration tlWidth
          (nextRef + members.length) (epicIndex + 1) rest with
      | .error e => .error e
      | .ok (restProjects, restEpics) =>
        if members.isEmpty then
          .ok (members ++ restProjects, restEpics)
        else
          .ok (members ++ restProjects,
            { name := epic.name, theme := epic.theme, projects := members,
              x1 := listMinI (members.map PositionedProject.x1),
              x2 := listMaxI (members.map tailOrEnd),
              epicIndex := epicIndex,
              pencilPressure := epicPencilPressure data epic } :: restEpics)

/-- `project.theme || 'Default'` (lines 511, 520). -/
def themeKey (t : String) : String := if t = "" then "Default" else t

/-- Point update of the `y`-assignment map. -/
def setY (f : Nat → Int) (r : Nat) (v : Int) : Nat → Int :=
  fun j => if j = r then v else f j

/-- One placement loop (`forEach` with `p.y = projectY; projectY += lineHeight`). -/
def placeRunY (ys : Nat → Int) (cursor : Int) : List PositionedProject → (Nat → Int) × Int
  | [] => (ys, cursor)
  | p :: rest => placeRunY (setY ys p.ref cursor) (cursor + lineHeight) rest

/-- The epic loop inside a theme (lines 554-576): place each nonempty epic's
members continuing the shared cursor, then set its `minY`/`maxY` from the ys
just assigned to its members. -/
def processGroupEpics (ys : Nat → Int) (cursor : Int) :
    List PositionedEpic → (Nat → Int) × Int × List PositionedEpic
  | [] => (ys, cursor, [])
  | epic :: rest =>
    if epic.projects.isEmpty then
      let step := processGroupEpics ys cursor rest
      (step.1, step.2.1, epic :: step.2.2)
    else
      let placed := placeRunY ys cursor epic.projects
      let projectYs := epic.projects.map (fun m => placed.1 m.ref)
      let epic1 := { epic with minY := some (listMinI projectYs),
                               maxY := some (listMaxI projectYs) }
      let step := processGroupEpics placed.1 placed.2 rest
      (step.1, step.2.1, epic1 :: step.2.2)

/-- The theme loop of `resolveCollisionsWithThemes` (lines 527-580): for each
theme name, gather its group (note: `allProjects` already contains the epic
members, so they belong to `group.projects` as well), size the block, run the
standalone placement pass over the whole group, then the epic pass, and push
the group projects plus (again) every epic's members into the block. Returns
the final assignment map, the cursor, the blocks (with stale `y` fields, to be
materialized), and the epic updates keyed by `epicIndex`. -/
def processThemes (allProjects : List PositionedProject) (epics : List PositionedEpic)
    (ys : Nat → Int) (currentY : Int) :
    List String → (Nat → Int) × Int × List ThemeBlock × List (Nat × PositionedEpic)
  | [] => (ys, currentY, [], [])
  | theme :: rest =>
    let groupProjects := allProjects.filter (fun p => themeKey p.theme == theme)
    let groupEpics := epics.filter (fun e => themeKey e.theme == theme)
    let labelHeight := calculateLabelHeight theme
    let contentHeight := calculateThemeContentHeight groupProjects.length
        (groupEpics.map (fun e => some e.projects.length))
    let themeHeight := max (labelHeight + 20) (contentHeight + 40)
    let placed := placeRunY ys (currentY + 20) groupProjects
    let epicStep := processGroupEpics placed.1 placed.2 groupEpics
    let block : ThemeBlock :=
      { name := theme, y := currentY, height := themeHeight,
        projects := groupProjects ++ groupEpics.flatMap PositionedEpic.projects,
        epics := epicStep.2.2 }
    let restStep := processThemes allProjects epics epicStep.1 (currentY + themeHeight) rest
    (restStep.1, restStep.2.1, block :: restStep.2.2.1,
      epicStep.2.2.map (fun e => (e.epicIndex, e)) ++ restStep.2.2.2)

/-- Read back a shared project object after the passes: its `y` is the latest
assignment to its reference. -/
def materializeProject (ys : Nat → Int) (p : PositionedProject) : PositionedProject :=
  { p with y := ys p.ref }

/-- Read back a shared epic object: its member objects carry their final `y`. -/
def materializeEpic (ys : Nat → Int) (e : PositionedEpic) : PositionedEpic :=
  { e with projects := e.projects.map (materializeProject ys) }

/-- An epic object mutated during the theme pass is observed in its updated
state; epics of themes never laid out are unchanged. -/
def lookupUpdate (updates : List (Nat × PositionedEpic)) (e : PositionedEpic) : PositionedEpic :=
  match List.lookup e.epicIndex updates with
  | some e1 => e1
  | none => e

/-- The `y` each shared object holds before the resolver runs (`processProject`
initialized every `y` to `0`). -/
def initialYs (projects : List PositionedProject) : Nat → Int :=
  projects.foldl (fun f p => setY f p.ref p.y) (fun _ => 0)

/-- `resolveCollisionsWithThemes` (lines 502-590). -/
def resolveCollisionsWithThemes (projects : List PositionedProject)
    (epics : List PositionedEpic) (themes : List String) : Scene :=
  let step := processThemes projects epics (initialYs projects) marginTop themes
  let finalBlocks := step.2.2.1.map (fun b =>
    { b with projects := b.projects.map (materializeProject step.1),
             epics := b.epics.map (materializeEpic step.1) })
  let finalEpics := epics.map (fun e => materializeEpic step.1 (lookupUpdate step.2.2.2 e))
  { projects := finalBlocks.flatMap ThemeBlock.projects,
    epics := finalEpics,
    themes := finalBlocks }

/-- `calculateTimelinePositions` (lines 383-442). -/
def calculateTimelinePositions (data : TimelineData) : Except String Scene :=
  let startDate := data.tbeg
  let endDate := data.tend
  let totalDuration := endDate - startDate
  let themes := getUniqueThemes data
  match mapE (fun p => processProject p startDate totalDuration timelineWidth none)
      data.projectLines with
  | .error e => .error e
  | .ok standalone0 =>
    let standalone := assignRefs 0 standalone0
    match processEpics data startDate totalDuration timelineWidth
        standalone.length 0 data.epics with
    | .error e => .error e
    | .ok pair =>
      .ok (resolveCollisionsWithThemes (standalone ++ pair.1) pair.2 themes)

/-- The effective pressure of `drawProjectLine` (lines 866-869):
`project.pencilPressure || this.data.pencilPressure || 0.85`. -/
def drawProjectLinePressure (data : TimelineData) (project : PositionedProject) : ℚ :=
  jsOrQ project.pencilPressure (jsOrQ data.pencilPressure 0.85)

/-- Substring containment, used to state what an error message mentions. -/
def containsStr (s sub : String) : Prop := ∃ a b, s = a ++ sub ++ b

/-! ### Concrete inputs for the individual claims -/

/-- C1: a dataset whose only project has an absent/empty theme. -/
def c1data : TimelineData :=
  { tbeg := 0, tend := 100,
    projectLines := [{ name := "P", theme := "", tbeg := 10, tend := 20 }] }

/-- C2: a theme `"T"` with no standalone projects and one epic of three members. -/
def c2data : TimelineData :=
  { tbeg := 0, tend := 100,
    epics := [{ name := "E", theme := "T",
                projectLines := [{ name := "M1", tbeg := 0, tend := 100 },
                                 { name := "M2", tbeg := 0, tend := 100 },
                                 { name := "M3", tbeg := 0, tend := 100 }] }] }

/-- C3: a single theme `"T"` with one epic of five members. -/
def c3data : TimelineData :=
  { tbeg := 0, tend := 100,
    epics := [{ name := "E", theme := "T",
                projectLines := [{ name := "M1", tbeg := 0, tend := 100 },
                                 { name := "M2", tbeg := 0, tend := 100 },
                                 { name := "M3", tbeg := 0, tend := 100 },
                                 { name := "M4", tbeg := 0, tend := 100 },
                                 { name := "M5", tbeg := 0, tend := 100 }] }] }

/-- C4: a dataset whose window has zero duration and no projects. -/
def c4data : TimelineData := { tbeg := 100, tend := 100 }

/-- C4 witness input: one project with end before start. -/
def c4proj : Project := { name := "B", theme := "T", tbeg := 5, tend := 3 }

/-- C4 witness input dataset. -/
def c4bad : TimelineData := { tbeg := 0, tend := 10, projectLines := [c4proj] }

/-- C5: theme `"X"` with one standalone project and one single-member epic. -/
def c5data : TimelineData :=
  { tbeg := 0, tend := 100,
    projectLines := [{ name := "A", theme := "X", tbeg := 0, tend := 100 }],
    epics := [{ name := "E", theme := "X",
                projectLines := [{ name := "B", tbeg := 0, tend := 100 }] }] }

/-- C6: a valid project whose tail span is far below half a pixel: the window
lasts 10200 units and the tail lasts 1, so the unrounded tail coordinate is
120.1 and rounds to the same pixel as `x2`. -/
def c6proj : Project := { name := "W", theme := "T", tbeg := 0, tend := 0, tailEnd := some 1 }

/-- C9: a valid project whose tail date falls before the window start at
exactly the position whose pixel coordinate is `0`: the tail ratio is `-2/17`
and `120 + (-2/17) * 1020 = 0`. -/
def c9proj : Project :=
  { name := "Z", theme := "T", tbeg := -5, tend := -3, tailEnd := some (-2) }

end PencilTimeline

namespace PencilTimeline

/-! ### Claim theorems -/

/-- Claim C1 (code bug): the claim says an absent/empty theme contributes the
literal theme `"Default"` to `uniqueThemes` and that every untagged project is
placed in the `"Default"` block with no project dropped. On the failing input
`c1data` (one untagged project), `getUniqueThemes` returns the empty list (it
skips falsy themes and never adds `"Default"`), so the `"Default"` group built
by `resolveCollisionsWithThemes` is never laid out and the project is silently
dropped from the returned scene. -/
theorem C1_untagged_project_dropped :
    getUniqueThemes c1data = [] ∧
    calculateTimelinePositions c1data = .ok { projects := [], epics := [], themes := [] } := by
  constructor
  · with_unfolding_all rfl
  · with_unfolding_all rfl

/-- Claim C2 (code bug): the claim says the Dimension Calculator's per-theme
content height is `max 80 (40 * n)` with `n` counting standalone projects plus
all epic members. On `c2data`, theme `"T"` has three epic members, but the
dimension path hands `calculateThemeContentHeight` raw epics (which carry
`projectLines`, not `projects`), so the members count for nothing and the
content height is `80` instead of the claimed `max 80 (40 * 3) = 120`. -/
theorem C2_dimension_ignores_epic_members :
    (getThemeContent c2data "T").2.map (fun e => e.projectLines.length) = [3] ∧
    calculateThemeContentHeight (getThemeContent c2data "T").1.length
      ((getThemeContent c2data "T").2.map (fun _ => (none : Option Nat))) = 80 ∧
    (80 : Int) ≠ max 80 ((3 : Int) * 40) := by
  refine ⟨by with_unfolding_all rfl, by with_unfolding_all rfl, by decide⟩

/-- Claim C3 (code bug): the claim says the returned height is at least the sum
of the laid-out theme block heights plus top/bottom margins and the bottom
buffer. On `c3data` the single theme's laid-out block is 440 tall (the layout
pass counts the five epic members twice: once in the group and once in the epic
list), yet `calculateRequiredDimensions` — whose per-theme height ignores epic
members — returns the floor height 800, and `800 < 440 + 120 + 60 + 200`. -/
theorem C3_height_below_block_sum :
    calculateRequiredDimensions c3data = (1200, 800) ∧
    (calculateTimelinePositions c3data).map (fun s => s.themes.map ThemeBlock.height) =
      .ok [440] ∧
    ¬ (800 : Int) ≥ 440 + marginTop + marginBottom + 200 := by
  refine ⟨by with_unfolding_all rfl, by with_unfolding_all rfl, by decide⟩

/-- Claim C4 counterexample: the claim says a dataset whose window has
non-positive duration fails with an `InvalidWindow` error before any scene is
produced. On `c4data` (`tend = tbeg`), `calculateTimelinePositions` performs no
window validation at all and returns a scene. -/
theorem C4_no_invalid_window_error :
    c4data.tend ≤ c4data.tbeg ∧
    calculateTimelinePositions c4data = .ok { projects := [], epics := [], themes := [] } := by
  refine ⟨by decide, by with_unfolding_all rfl⟩

/-- Claim C5 counterexample: the claim says epic members continue the theme's y
cursor consecutively after the standalone projects, which for `c5data` (one
standalone project, then one epic member, block top 120) would put the member
at `120 + 20 + 40 = 180`. In fact `allProjects` already contains the epic
member, so the first placement pass advances the cursor over it once before
the epic pass re-places it: the member lands at `220` (and appears twice in
the block's project list). -/
theorem C5_member_cursor_gap :
    (calculateTimelinePositions c5data).map (fun s =>
        (s.themes.map (fun b => (b.name, b.y, b.projects.map (fun p => (p.name, p.y)))),
         s.epics.map (fun e => (e.minY, e.maxY)))) =
      .ok ([("X", 120, [("A", 140), ("B", 220), ("B", 220)])], [(some 220, some 220)]) ∧
    (220 : Int) ≠ 120 + 20 + 40 * 1 := by
  refine ⟨by with_unfolding_all rfl, by decide⟩

/-- Claim C6 counterexample: the claim says a present tail (strictly after the
end date) yields `x2 < x3` in rounded pixel coordinates. For `c6proj` under a
10200-unit window the unrounded coordinates are `x2 = 120` and `x3 = 120.1`,
which both round to `120`: the tail is validated and stored, but `x2 < x3`
fails after rounding. -/
theorem C6_rounded_tail_not_strict :
    (∃ t, c6proj.tailEnd = some t ∧ c6proj.tend < t) ∧
    (processProject c6proj 0 10200 timelineWidth none).map (fun p => (p.x1, p.x2, p.x3)) =
      .ok (120, 120, some 120) ∧
    ¬ (120 : Int) < 120 := by
  refine ⟨⟨1, rfl, by decide⟩, by with_unfolding_all rfl, by decide⟩

/-- Claim C9 (confirmed): `c9proj` passes validation (its tail is strictly
after its end) yet its positioned `x3` is `null`: its computed tail coordinate
`120 + (-2/17) * 1020` is exactly `0`, which the truthiness guard
`x3 ? Math.round(x3) : null` discards. In general, for every validated project
with a tail, the guard yields `none` exactly when the unrounded tail coordinate
is `0`, and the rounded coordinate otherwise. -/
theorem C9_zero_tail_coordinate_discarded :
    ((c9proj.tbeg ≤ c9proj.tend ∧ ∃ t, c9proj.tailEnd = some t ∧ c9proj.tend < t) ∧
      (processProject c9proj 0 17 timelineWidth none).map PositionedProject.x3 = .ok none) ∧
    ∀ (project : Project) (sd dur : Int) (W : ℚ) (ei : Option Nat) (t : Int),
      project.tailEnd = some t → ¬ project.tend < project.tbeg → project.tend < t →
      (((marginLeft : ℚ) + (((t - sd : Int) : ℚ) / ((dur : Int) : ℚ)) * W = 0 →
          (processProject project sd dur W ei).map PositionedProject.x3 = .ok none) ∧
       ((marginLeft : ℚ) + (((t - sd : Int) : ℚ) / ((dur : Int) : ℚ)) * W ≠ 0 →
          (processProject project sd dur W ei).map PositionedProject.x3 =
            .ok (some (jsRound
              ((marginLeft : ℚ) + (((t - sd : Int) : ℚ) / ((dur : Int) : ℚ)) * W))))) := by
  refine ⟨⟨⟨by decide, ⟨-2, rfl, by decide⟩⟩, by with_unfolding_all rfl⟩, ?_⟩
  intro project sd dur W ei t ht hrange htail
  simp only [processProject, if_neg hrange, ht, if_neg (not_le.mpr htail), positionedOf,
    Except.map]
  constructor
  · intro hv
    push_cast at hv
    simp [hv]
  · intro hv
    push_cast at hv
    simp [hv]

/-- C9 witness input: a validated tailed project with a nonzero tail
coordinate. -/
def c9wproj : Project := { name := "V", theme := "T", tbeg := 0, tend := 0, tailEnd := some 1 }

/-- Witness for C9: at `c9wproj` under a 10200-unit window the tail coordinate
is `120.1`, nonzero, so the stored `x3` is its rounding. -/
theorem C9_zero_tail_coordinate_discarded_witness :
    (processProject c9wproj 0 10200 timelineWidth none).map PositionedProject.x3 =
      .ok (some (jsRound
        ((marginLeft : ℚ) + (((1 - 0 : Int) : ℚ) / ((10200 : Int) : ℚ)) * timelineWidth))) :=
  (C9_zero_tail_coordinate_discarded.2 c9wproj 0 10200 timelineWidth none 1 rfl
      (by decide) (by decide)).2 (by with_unfolding_all decide)

/-- Claim C10 (confirmed): a per-project `pencilPressure` of exactly `0` is
falsy, so `drawProjectLine` falls back to the dataset-level pressure and then
to `0.85`; the effective pressure is never `0`. The same falsy-zero chain
applies to an epic's parsed `pencilPressure` (line 431). -/
theorem C10_zero_pressure_falls_back :
    (∀ (data : TimelineData) (project : PositionedProject),
        project.pencilPressure = some 0 →
          drawProjectLinePressure data project = jsOrQ data.pencilPressure 0.85 ∧
          drawProjectLinePressure data project ≠ 0 ∧
          ((data.pencilPressure = none ∨ data.pencilPressure = some 0) →
            drawProjectLinePressure data project = 0.85)) ∧
    (∀ (data : TimelineData) (epic : Epic),
        (epic.pencilPressure = none ∨ epic.pencilPressure = some 0) →
          epicPencilPressure data epic = jsOrQ data.pencilPressure 0.85 ∧
          epicPencilPressure data epic ≠ 0) := by
  have hne : ∀ o : Option ℚ, jsOrQ o 0.85 ≠ 0 := by
    intro o
    match o with
    | none => simp [jsOrQ]; norm_num
    | some x =>
      by_cases hx : x = 0
      · simp [jsOrQ, hx]; norm_num
      · simp [jsOrQ, hx, hx]
  have hzero : ∀ o : Option ℚ, (o = none ∨ o = some 0) → jsOrQ o 0.85 = 0.85 := by
    intro o h
    rcases h with h | h <;> simp [jsOrQ, h]
  constructor
  · intro data project h
    refine ⟨by simp [drawProjectLinePressure, jsOrQ, h], ?_, ?_⟩
    · simpa [drawProjectLinePressure, jsOrQ, h] using hne data.pencilPressure
    · intro hd
      rcases hd with hd | hd <;> simp [drawProjectLinePressure, jsOrQ, h, hd]
  · intro data epic h
    refine ⟨?_, ?_⟩
    · rcases h with h | h <;> simp [epicPencilPressure, jsOrQ, h]
    · rcases h with h | h <;>
        simpa [epicPencilPressure, jsOrQ, h] using hne data.pencilPressure

/-- C10 witness inputs. -/
def c10data : TimelineData := { tbeg := 0, tend := 10, pencilPressure := some 0 }

/-- C10 witness input project. -/
def c10proj : PositionedProject :=
  { name := "P", theme := "T", x1 := 0, x2 := 0, x3 := none, y := 0,
    startDate := 0, endDate := 0, tailEndDate := none, epicIndex := none,
    pencilPressure := some 0 }

/-- Witness for C10: with both the project-level and dataset-level pressures
zero, the effective pressure is the constant `0.85`. -/
theorem C10_zero_pressure_falls_back_witness :
    drawProjectLinePressure c10data c10proj = jsOrQ c10data.pencilPressure 0.85 ∧
    drawProjectLinePressure c10data c10proj ≠ 0 ∧
    ((c10data.pencilPressure = none ∨ c10data.pencilPressure = some 0) →
      drawProjectLinePressure c10data c10proj = 0.85) :=
  C10_zero_pressure_falls_back.1 c10data c10proj rfl

/-! ### Inversion lemmas for the error plumbing -/

/-- An error of `mapE` comes from some list element. -/
theorem mapE_error_mem {α β : Type} {f : α → Except String β} {l : List α} {e : String}
    (h : mapE f l = .error e) : ∃ a ∈ l, f a = .error e := by
  induction l with
  | nil => simp [mapE] at h
  | cons a rest ih =>
    unfold mapE at h
    split at h
    next e1 hfa =>
      injection h with h
      exact ⟨a, List.mem_cons_self a rest, by rw [hfa, h]⟩
    next b hfa =>
      split at h
      next e2 hrest =>
        injection h with h
        obtain ⟨x, hx, hfx⟩ := ih (by rw [hrest, h])
        exact ⟨x, List.mem_cons_of_mem a hx, hfx⟩
      next => cases h

/-- If `mapE` succeeds, every element succeeded. -/
theorem mapE_ok_mem {α β : Type} {f : α → Except String β} {l : List α} {bs : List β}
    (h : mapE f l = .ok bs) {a : α} (ha : a ∈ l) : ∃ b, f a = .ok b := by
  induction l generalizing bs with
  | nil => cases ha
  | cons x rest ih =>
    unfold mapE at h
    split at h
    next => cases h
    next b hfx =>
      split at h
      next => cases h
      next bs2 hrest =>
        rcases List.mem_cons.mp ha with rfl | ha2
        · exact ⟨b, hfx⟩
        · exact ih hrest ha2

/-- Every error of `processProject` is one of the two validation messages. -/
theorem processProject_error {p : Project} {sd dur : Int} {W : ℚ} {ei : Option Nat}
    {e : String} (h : processProject p sd dur W ei = .error e) :
    e = rangeMsg p ∨ ∃ t, p.tailEnd = some t ∧ e = tailMsg p t := by
  unfold processProject at h
  split at h
  · injection h with h
    exact Or.inl h.symm
  · split at h
    next t ht =>
      split at h
      next hle =>
        injection h with h
        exact Or.inr ⟨t, ht, h.symm⟩
      next => cases h
    next => cases h

/-- An error of the epic loop comes from processing some member project. -/
theorem processEpics_error {data : TimelineData} {sd dur : Int} {W : ℚ}
    {n i : Nat} {es : List Epic} {e : String}
    (h : processEpics data sd dur W n i es = .error e) :
    ∃ ep ∈ es, ∃ p ∈ ep.projectLines, ∃ j, processProject p sd dur W (some j) = .error e := by
  induction es generalizing n i with
  | nil => simp [processEpics] at h
  | cons ep rest ih =>
    unfold processEpics at h
    split at h
    next e1 hm =>
      injection h with h
      obtain ⟨p, hp, hpe⟩ := mapE_error_mem (by rw [hm, h])
      exact ⟨ep, List.mem_cons_self ep rest, p, hp, i, hpe⟩
    next ms hm =>
      dsimp only at h
      split at h
      next e2 hr =>
        injection h with h
        obtain ⟨ep2, hep2, rest2⟩ := ih (by rw [hr, h])
        exact ⟨ep2, List.mem_cons_of_mem ep hep2, rest2⟩
      next pair hr =>
        split at h <;> cases h

/-- If the epic loop succeeds, every member project of every epic was
processed successfully (with its epic's index). -/
theorem processEpics_ok_mem {data : TimelineData} {sd dur : Int} {W : ℚ}
    {n i : Nat} {es : List Epic} {pr : List PositionedProject × List PositionedEpic}
    (h : processEpics data sd dur W n i es = .ok pr)
    {ep : Epic} (hep : ep ∈ es) {p : Project} (hp : p ∈ ep.projectLines) :
    ∃ j b, processProject p sd dur W (some j) = .ok b := by
  induction es generalizing n i pr with
  | nil => cases hep
  | cons e0 rest ih =>
    unfold processEpics at h
    split at h
    next => cases h
    next ms hm =>
      dsimp only at h
      split at h
      next => cases h
      next pair hr =>
        rcases List.mem_cons.mp hep with rfl | hep2
        · obtain ⟨b, hb⟩ := mapE_ok_mem hm hp
          exact ⟨i, b, hb⟩
        · exact ih hr hep2

/-- Claim C4, amended (the layout pass performs no window validation): every
error `calculateTimelinePositions` can return is one of the two per-project
validation messages of `processProject`; there is no invalid-window error. In
particular (see `C4_no_invalid_window_error`) a dataset with a non-positive
window and no offending project yields a scene, not an error. -/
theorem C4_errors_only_project_validation (data : TimelineData) (e : String)
    (h : calculateTimelinePositions data = .error e) :
    ∃ p, (p ∈ data.projectLines ∨ ∃ ep ∈ data.epics, p ∈ ep.projectLines) ∧
      (e = rangeMsg p ∨ ∃ t, p.tailEnd = some t ∧ e = tailMsg p t) := by
  unfold calculateTimelinePositions at h
  dsimp only at h
  split at h
  next e1 hm =>
    injection h with h
    obtain ⟨p, hp, hpe⟩ := mapE_error_mem (by rw [hm, h])
    exact ⟨p, Or.inl hp, processProject_error hpe⟩
  next ok1 hm =>
    split at h
    next e2 hr =>
      injection h with h
      obtain ⟨ep, hep, p, hp, j, hpe⟩ := processEpics_error (by rw [hr, h])
      exact ⟨p, Or.inr ⟨ep, hep, hp⟩, processProject_error hpe⟩
    next => cases h

/-- Witness for C4: at `c4bad` the layout pass errors, and the error is the
date-range message of its single project. -/
theorem C4_errors_only_project_validation_witness :
    ∃ p, (p ∈ c4bad.projectLines ∨ ∃ ep ∈ c4bad.epics, p ∈ ep.projectLines) ∧
      (rangeMsg c4proj = rangeMsg p ∨
        ∃ t, p.tailEnd = some t ∧ rangeMsg c4proj = tailMsg p t) :=
  C4_errors_only_project_validation c4bad (rangeMsg c4proj) (by with_unfolding_all rfl)

/-! ### What the validation messages mention -/

theorem rangeMsg_has_name (p : Project) : containsStr (rangeMsg p) p.name :=
  ⟨"Invalid date range for project \"",
   "\": end date (" ++ toString p.tend ++ ") is before start date ("
     ++ toString p.tbeg ++ ")",
   by simp [rangeMsg, containsStr, String.append_assoc]⟩

theorem rangeMsg_has_tend (p : Project) : containsStr (rangeMsg p) (toString p.tend) :=
  ⟨"Invalid date range for project \"" ++ p.name ++ "\": end date (",
   ") is before start date (" ++ toString p.tbeg ++ ")",
   by simp [rangeMsg, containsStr, String.append_assoc]⟩

theorem rangeMsg_has_tbeg (p : Project) : containsStr (rangeMsg p) (toString p.tbeg) :=
  ⟨"Invalid date range for project \"" ++ p.name ++ "\": end date ("
     ++ toString p.tend ++ ") is before start date (",
   ")",
   by simp [rangeMsg, containsStr, String.append_assoc]⟩

theorem tailMsg_has_name (p : Project) (t : Int) : containsStr (tailMsg p t) p.name :=
  ⟨"Invalid tailEnd for project \"",
   "\": tailEnd (" ++ toString t ++ ") must be after tend (" ++ toString p.tend ++ ")",
   by simp [tailMsg, containsStr, String.append_assoc]⟩

theorem tailMsg_has_tail (p : Project) (t : Int) : containsStr (tailMsg p t) (toString t) :=
  ⟨"Invalid tailEnd for project \"" ++ p.name ++ "\": tailEnd (",
   ") must be after tend (" ++ toString p.tend ++ ")",
   by simp [tailMsg, containsStr, String.append_assoc]⟩

theorem tailMsg_has_tend (p : Project) (t : Int) : containsStr (tailMsg p t) (toString p.tend) :=
  ⟨"Invalid tailEnd for project \"" ++ p.name ++ "\": tailEnd ("
     ++ toString t ++ ") must be after tend (",
   ")",
   by simp [tailMsg, containsStr, String.append_assoc]⟩

/-- Claim C7 (confirmed): a project whose end precedes its start, or whose
present tail end is not strictly after its end (equality included), makes
`processProject` throw synchronously — whatever the window and geometry
arguments are — with a message naming the project and the offending date
values; and if such a project occurs in the dataset (standalone or inside an
epic), `calculateTimelinePositions` returns an error and no scene. -/
theorem C7_invalid_dates_abort (data : TimelineData) (project : Project)
    (hmem : project ∈ data.projectLines ∨ ∃ ep ∈ data.epics, project ∈ ep.projectLines)
    (hbad : project.tend < project.tbeg ∨
      ∃ t, project.tailEnd = some t ∧ t ≤ project.tend) :
    (∀ (sd dur : Int) (W : ℚ) (ei : Option Nat), ∃ msg,
        processProject project sd dur W ei = .error msg ∧
        containsStr msg project.name ∧
        ((project.tend < project.tbeg ∧
            containsStr msg (toString project.tend) ∧
            containsStr msg (toString project.tbeg)) ∨
         (∃ t, project.tailEnd = some t ∧
            containsStr msg (toString t) ∧ containsStr msg (toString project.tend)))) ∧
    ∃ msg, calculateTimelinePositions data = .error msg := by
  have herr : ∀ (sd dur : Int) (W : ℚ) (ei : Option Nat), ∃ msg,
      processProject project sd dur W ei = .error msg ∧
      containsStr msg project.name ∧
      ((project.tend < project.tbeg ∧
          containsStr msg (toString project.tend) ∧
          containsStr msg (toString project.tbeg)) ∨
       (∃ t, project.tailEnd = some t ∧
          containsStr msg (toString t) ∧ containsStr msg (toString project.tend))) := by
    intro sd dur W ei
    by_cases hr : project.tend < project.tbeg
    · exact ⟨rangeMsg project, by simp [processProject, hr], rangeMsg_has_name project,
        Or.inl ⟨hr, rangeMsg_has_tend project, rangeMsg_has_tbeg project⟩⟩
    · rcases hbad with hb | ⟨t, ht, hle⟩
      · exact absurd hb hr
      · exact ⟨tailMsg project t, by simp [processProject, hr, ht, hle],
          tailMsg_has_name project t,
          Or.inr ⟨t, ht, tailMsg_has_tail project t, tailMsg_has_tend project t⟩⟩
  refine ⟨herr, ?_⟩
  cases hres : calculateTimelinePositions data with
  | error e => exact ⟨e, rfl⟩
  | ok s =>
    exfalso
    unfold calculateTimelinePositions at hres
    dsimp only at hres
    split at hres
    next => cases hres
    next ok1 hm =>
      split at hres
      next => cases hres
      next pair hr =>
        rcases hmem with hp | ⟨ep, hep, hp⟩
        · obtain ⟨b, hb⟩ := mapE_ok_mem hm hp
          obtain ⟨msg, hmsg, -⟩ :=
            herr data.tbeg (data.tend - data.tbeg) timelineWidth none
          rw [hb] at hmsg
          cases hmsg
        · obtain ⟨j, b, hb⟩ := processEpics_ok_mem hr hep hp
          obtain ⟨msg, hmsg, -⟩ :=
            herr data.tbeg (data.tend - data.tbeg) timelineWidth (some j)
          rw [hb] at hmsg
          cases hmsg

/-- C7 witness inputs: a dataset whose only project has its end before its
start. -/
def c7proj : Project := { name := "C7P", theme := "T", tbeg := 9, tend := 2 }

/-- C7 witness dataset. -/
def c7data : TimelineData := { tbeg := 0, tend := 10, projectLines := [c7proj] }

/-- Witness for C7 at `c7data`/`c7proj`. -/
theorem C7_invalid_dates_abort_witness :
    (∀ (sd dur : Int) (W : ℚ) (ei : Option Nat), ∃ msg,
        processProject c7proj sd dur W ei = .error msg ∧
        containsStr msg c7proj.name ∧
        ((c7proj.tend < c7proj.tbeg ∧
            containsStr msg (toString c7proj.tend) ∧
            containsStr msg (toString c7proj.tbeg)) ∨
         (∃ t, c7proj.tailEnd = some t ∧
            containsStr msg (toString t) ∧ containsStr msg (toString c7proj.tend)))) ∧
    ∃ msg, calculateTimelinePositions c7data = .error msg :=
  C7_invalid_dates_abort c7data c7proj (Or.inl (by decide)) (Or.inl (by decide))

/-! ### Properties of the theme collector -/

theorem mem_addTheme {acc : List String} {t x : String} :
    x ∈ addTheme acc t ↔ x ∈ acc ∨ x = t := by
  unfold addTheme
  by_cases ht : t ∈ acc
  · simp only [if_pos ht]
    constructor
    · exact Or.inl
    · rintro (hx | rfl)
      · exact hx
      · exact ht
  · simp [if_neg ht]

theorem nodup_addTheme {acc : List String} (h : acc.Nodup) (t : String) :
    (addTheme acc t).Nodup := by
  unfold addTheme
  by_cases ht : t ∈ acc
  · simpa [if_pos ht]
  · rw [if_neg ht, List.nodup_append]
    refine ⟨h, List.nodup_singleton t, ?_⟩
    intro x hx hxl
    rw [List.mem_singleton] at hxl
    exact ht (hxl ▸ hx)

theorem mem_foldl_addTheme {l : List String} {acc : List String} {x : String} :
    x ∈ l.foldl addTheme acc ↔ x ∈ acc ∨ x ∈ l := by
  induction l generalizing acc with
  | nil => simp
  | cons a rest ih =>
    rw [List.foldl_cons, ih]
    rw [mem_addTheme]
    simp only [List.mem_cons]
    tauto

theorem nodup_foldl_addTheme {l : List String} {acc : List String} (h : acc.Nodup) :
    (l.foldl addTheme acc).Nodup := by
  induction l generalizing acc with
  | nil => simpa
  | cons a rest ih => exact ih (nodup_addTheme h a)

theorem getUniqueThemes_nodup (data : TimelineData) : (getUniqueThemes data).Nodup :=
  ((List.perm_insertionSort _ _).nodup_iff).mpr (nodup_foldl_addTheme List.nodup_nil)

theorem getUniqueThemes_sorted (data : TimelineData) :
    List.Sorted (fun a b : String => a ≤ b) (getUniqueThemes data) :=
  List.sorted_insertionSort _ _

/-- Claim C8 (confirmed): `getUniqueThemes` returns a strictly increasing
(hence duplicate-free, lexicographically ascending) list, and its output is
invariant under any permutation of the combined multiset of project/epic theme
names. Determinism and idempotence of re-running on the same input are
immediate since the embedding is a pure function of the data (the `d2 := d1`
instance of the permutation hypothesis). -/
theorem C8_unique_themes_canonical (d1 d2 : TimelineData)
    (hperm : (d1.projectLines.map Project.theme ++ d1.epics.map Epic.theme).Perm
      (d2.projectLines.map Project.theme ++ d2.epics.map Epic.theme)) :
    List.Sorted (fun a b : String => a < b) (getUniqueThemes d1) ∧
    getUniqueThemes d1 = getUniqueThemes d2 := by
  refine ⟨(getUniqueThemes_sorted d1).lt_of_le (getUniqueThemes_nodup d1), ?_⟩
  have hcollect : ∀ d : TimelineData,
      collectedThemes d =
        (d.projectLines.map Project.theme ++ d.epics.map Epic.theme).filter
          (fun t => t ≠ "") := by
    intro d
    simp [collectedThemes, List.filter_append]
  have hc : (collectedThemes d1).Perm (collectedThemes d2) := by
    rw [hcollect d1, hcollect d2]
    exact hperm.filter _
  have hn1 : ((collectedThemes d1).foldl addTheme []).Nodup := nodup_foldl_addTheme List.nodup_nil
  have hn2 : ((collectedThemes d2).foldl addTheme []).Nodup := nodup_foldl_addTheme List.nodup_nil
  have hsets : ((collectedThemes d1).foldl addTheme []).Perm
      ((collectedThemes d2).foldl addTheme []) := by
    rw [List.perm_ext_iff_of_nodup hn1 hn2]
    intro a
    rw [mem_foldl_addTheme, mem_foldl_addTheme, hc.mem_iff]
  have hp : (getUniqueThemes d1).Perm (getUniqueThemes d2) :=
    ((List.perm_insertionSort _ _).trans hsets).trans (List.perm_insertionSort _ _).symm
  exact List.eq_of_perm_of_sorted hp (getUniqueThemes_sorted d1) (getUniqueThemes_sorted d2)

/-- C8 witness datasets: the same multiset of theme names in two different
orders and distributions. -/
def c8d1 : TimelineData :=
  { tbeg := 0, tend := 1,
    projectLines := [{ name := "p1", theme := "B", tbeg := 0, tend := 1 },
                     { name := "p2", theme := "A", tbeg := 0, tend := 1 }],
    epics := [{ name := "e1", theme := "C" }] }

/-- C8 witness counterpart dataset. -/
def c8d2 : TimelineData :=
  { tbeg := 5, tend := 9,
    projectLines := [{ name := "q1", theme := "C", tbeg := 2, tend := 3 },
                     { name := "q2", theme := "B", tbeg := 2, tend := 3 }],
    epics := [{ name := "e2", theme := "A" }] }

/-- Witness for C8 at `c8d1`/`c8d2`. -/
theorem C8_unique_themes_canonical_witness :
    List.Sorted (fun a b : String => a < b) (getUniqueThemes c8d1) ∧
    getUniqueThemes c8d1 = getUniqueThemes c8d2 :=
  C8_unique_themes_canonical c8d1 c8d2 (by with_unfolding_all decide)

/-! ### Monotonicity of the date-to-pixel map -/

theorem jsRound_mono {a b : ℚ} (h : a ≤ b) : jsRound a ≤ jsRound b :=
  Int.floor_le_floor (by linarith)

/-- The pixel coordinate `margin.left + ((d - sd) / dur) * W` is monotone in
the date `d` for a positive duration and nonnegative band width. -/
theorem coordQ_mono {sd dur : Int} {W : ℚ} (hdur : 0 < dur) (hW : 0 ≤ W)
    {a b : Int} (h : a ≤ b) :
    (marginLeft : ℚ) + ((a - sd : Int) : ℚ) / ((dur : Int) : ℚ) * W ≤
      (marginLeft : ℚ) + ((b - sd : Int) : ℚ) / ((dur : Int) : ℚ) * W := by
  have hd : (0 : ℚ) < ((dur : Int) : ℚ) := by exact_mod_cast hdur
  have hab : ((a - sd : Int) : ℚ) ≤ ((b - sd : Int) : ℚ) :=
    Int.cast_le.mpr (sub_le_sub_right h sd)
  exact add_le_add_left
    (mul_le_mul_of_nonneg_right ((div_le_div_iff_of_pos_right hd).mpr hab) hW) _

/-- Claim C6, amended: for every project passing validation under a positive
window duration and a nonnegative band width, `x1 ≤ x2` holds, and whenever the
tail coordinate is stored (non-null) it satisfies `x2 ≤ x3`; strictness of
`x2 < x3` can be lost to rounding (see `C6_rounded_tail_not_strict`). -/
theorem C6_x_ordering_amended (project : Project) (sd dur wInt : Int)
    (ei : Option Nat)
    (hdur : 0 < dur) (hw : 0 ≤ wInt)
    (hrange : ¬ project.tend < project.tbeg)
    (htail : project.tailEnd = none ∨
      ∃ t, project.tailEnd = some t ∧ project.tend < t) :
    ∃ pp, processProject project sd dur ((wInt : Int) : ℚ) ei = .ok pp ∧
      pp.x1 ≤ pp.x2 ∧ ∀ v, pp.x3 = some v → pp.x2 ≤ v := by
  have hW : (0 : ℚ) ≤ ((wInt : Int) : ℚ) := by exact_mod_cast hw
  have h12 : (positionedOf project sd dur ((wInt : Int) : ℚ) ei).x1 ≤
      (positionedOf project sd dur ((wInt : Int) : ℚ) ei).x2 := by
    simp only [positionedOf]
    exact jsRound_mono (coordQ_mono hdur hW (not_lt.mp hrange))
  rcases htail with hTE | ⟨t, hTE, hlt⟩
  · refine ⟨positionedOf project sd dur ((wInt : Int) : ℚ) ei, ?_, h12, ?_⟩
    · simp [processProject, hrange, hTE]
    · intro v hv
      simp only [positionedOf, hTE] at hv
      cases hv
  · refine ⟨positionedOf project sd dur ((wInt : Int) : ℚ) ei, ?_, h12, ?_⟩
    · simp [processProject, hrange, hTE, not_le.mpr hlt]
    · intro v hv
      simp only [positionedOf, hTE] at hv
      by_cases hz : (marginLeft : ℚ) + ((t - sd : Int) : ℚ) / ((dur : Int) : ℚ)
          * ((wInt : Int) : ℚ) = 0
      · rw [if_pos hz] at hv
        cases hv
      · rw [if_neg hz] at hv
        injection hv with hv
        subst hv
        simp only [positionedOf]
        exact jsRound_mono (coordQ_mono hdur hW hlt.le)

/-- C6 witness input: a valid project with a tail. -/
def c6wproj : Project :=
  { name := "V6", theme := "T", tbeg := 10, tend := 40, tailEnd := some 60 }

/-- Witness for C6 amended at `c6wproj` in a `[0, 100)` window. -/
theorem C6_x_ordering_amended_witness :
    ∃ pp, processProject c6wproj 0 100 ((1020 : Int) : ℚ) none = .ok pp ∧
      pp.x1 ≤ pp.x2 ∧ ∀ v, pp.x3 = some v → pp.x2 ≤ v :=
  C6_x_ordering_amended c6wproj 0 100 1020 none (by decide) (by decide) (by decide)
    (Or.inr ⟨60, rfl, by decide⟩)

/-! ### The placement passes of the collision resolver -/

/-- `n` consecutive `lineHeight`-unit slot positions starting at `c`. -/
def slotYs (c : Int) : Nat → List Int
  | 0 => []
  | n + 1 => c :: slotYs (c + lineHeight) n

theorem slotYs_length (c : Int) (n : Nat) : (slotYs c n).length = n := by
  induction n generalizing c with
  | zero => rfl
  | succ k ih => simp [slotYs, ih]

theorem slotYs_append (a b : Nat) (c : Int) :
    slotYs c (a + b) = slotYs c a ++ slotYs (c + lineHeight * (a : Int)) b := by
  induction a generalizing c with
  | zero => simp [slotYs]
  | succ n ih =>
    have h1 : n + 1 + b = (n + b) + 1 := by omega
    rw [h1]
    simp only [slotYs, List.cons_append]
    rw [ih]
    have h2 : c + lineHeight + lineHeight * (n : Int) = c + lineHeight * ((n : Int) + 1) := by
      ring
    rw [h2]
    push_cast
    ring_nf

theorem placeRunY_snd (ys : Nat → Int) (c : Int) (l : List PositionedProject) :
    (placeRunY ys c l).2 = c + lineHeight * (l.length : Int) := by
  induction l generalizing ys c with
  | nil => simp [placeRunY]
  | cons p rest ih =>
    simp only [placeRunY, List.length_cons]
    rw [ih]
    push_cast
    ring

theorem placeRunY_untouched {l : List PositionedProject} {r : Nat}
    (hr : r ∉ l.map PositionedProject.ref) (ys : Nat → Int) (c : Int) :
    (placeRunY ys c l).1 r = ys r := by
  induction l generalizing ys c with
  | nil => rfl
  | cons p rest ih =>
    simp only [List.map_cons, List.mem_cons] at hr
    push_neg at hr
    simp only [placeRunY]
    rw [ih hr.2]
    simp [setY, hr.1]

theorem placeRunY_map {l : List PositionedProject}
    (hnd : (l.map PositionedProject.ref).Nodup) (ys : Nat → Int) (c : Int) :
    l.map (fun p => (placeRunY ys c l).1 p.ref) = slotYs c l.length := by
  induction l generalizing ys c with
  | nil => rfl
  | cons p rest ih =>
    simp only [List.map_cons, List.nodup_cons] at hnd
    simp only [placeRunY, List.map_cons, List.length_cons, slotYs]
    have hhead : (placeRunY (setY ys p.ref c) (c + lineHeight) rest).1 p.ref = c := by
      rw [placeRunY_untouched hnd.1]
      simp [setY]
    rw [hhead, ih hnd.2]

theorem processGroupEpics_untouched {E : List PositionedEpic} {r : Nat}
    (hr : r ∉ ((E.flatMap PositionedEpic.projects).map PositionedProject.ref))
    (ys : Nat → Int) (c : Int) :
    (processGroupEpics ys c E).1 r = ys r := by
  induction E generalizing ys c with
  | nil => rfl
  | cons e rest ih =>
    simp only [List.flatMap_cons, List.map_append, List.mem_append] at hr
    push_neg at hr
    by_cases he : e.projects.isEmpty
    · simp only [processGroupEpics, if_pos he]
      exact ih hr.2 ys c
    · simp only [processGroupEpics, if_neg he]
      rw [ih hr.2, placeRunY_untouched hr.1]

theorem processGroupEpics_map {E : List PositionedEpic}
    (hnd : ((E.flatMap PositionedEpic.projects).map PositionedProject.ref).Nodup)
    (ys : Nat → Int) (c : Int) :
    (E.flatMap PositionedEpic.projects).map
        (fun q => (processGroupEpics ys c E).1 q.ref) =
      slotYs c (E.flatMap PositionedEpic.projects).length := by
  induction E generalizing ys c with
  | nil => rfl
  | cons e rest ih =>
    have hsplit : (e :: rest).flatMap PositionedEpic.projects =
        e.projects ++ rest.flatMap PositionedEpic.projects := by
      simp
    rw [hsplit] at hnd ⊢
    rw [List.map_append] at hnd
    rw [List.nodup_append] at hnd
    obtain ⟨hnd1, hnd2, hdisj⟩ := hnd
    by_cases he : e.projects.isEmpty
    · have he2 : e.projects = [] := by simpa using he
      simp only [processGroupEpics, if_pos he, he2, List.nil_append, List.length_nil]
      exact ih (by simpa [he2] using hnd2) ys c
    · simp only [processGroupEpics, if_neg he]
      rw [List.map_append, List.length_append]
      rw [slotYs_append]
      congr 1
      · have hcongr : ∀ q ∈ e.projects,
            (processGroupEpics (placeRunY ys c e.projects).1
              (placeRunY ys c e.projects).2 rest).1 q.ref =
            (placeRunY ys c e.projects).1 q.ref := by
          intro q hq
          exact processGroupEpics_untouched
            (fun hmem => hdisj (List.mem_map_of_mem PositionedProject.ref hq) hmem) _ _
        rw [List.map_congr_left hcongr]
        exact placeRunY_map hnd1 ys c
      · have hc2 : (placeRunY ys c e.projects).2 = c + lineHeight * (e.projects.length : Int) :=
          placeRunY_snd ys c e.projects
        rw [← hc2]
        exact ih hnd2 _ _

theorem processGroupEpics_entry {E : List PositionedEpic}
    (hnd : ((E.flatMap PositionedEpic.projects).map PositionedProject.ref).Nodup)
    (ys : Nat → Int) (c : Int) :
    ∀ u ∈ (processGroupEpics ys c E).2.2,
      u.projects ≠ [] →
        u.minY = some (listMinI (u.projects.map
          (fun m => (processGroupEpics ys c E).1 m.ref))) ∧
        u.maxY = some (listMaxI (u.projects.map
          (fun m => (processGroupEpics ys c E).1 m.ref))) := by
  induction E generalizing ys c with
  | nil => intro u hu; cases hu
  | cons e rest ih =>
    have hsplit : (e :: rest).flatMap PositionedEpic.projects =
        e.projects ++ rest.flatMap PositionedEpic.projects := by
      simp
    rw [hsplit, List.map_append, List.nodup_append] at hnd
    obtain ⟨hnd1, hnd2, hdisj⟩ := hnd
    by_cases he : e.projects.isEmpty
    · have he2 : e.projects = [] := by simpa using he
      simp only [processGroupEpics, if_pos he]
      intro u hu hne
      rcases List.mem_cons.mp hu with rfl | hu2
      · exact absurd he2 hne
      · exact ih hnd2 ys c u hu2 hne
    · simp only [processGroupEpics, if_neg he]
      intro u hu hne
      have hstage : ∀ q ∈ e.projects,
          (processGroupEpics (placeRunY ys c e.projects).1
            (placeRunY ys c e.projects).2 rest).1 q.ref =
          (placeRunY ys c e.projects).1 q.ref := by
        intro q hq
        exact processGroupEpics_untouched
          (fun hmem => hdisj (List.mem_map_of_mem PositionedProject.ref hq) hmem) _ _
      rcases List.mem_cons.mp hu with rfl | hu2
      · refine ⟨?_, ?_⟩
        · dsimp only
          rw [List.map_congr_left hstage]
        · dsimp only
          rw [List.map_congr_left hstage]
      · exact ih hnd2 _ _ u hu2 hne

theorem filter_projects_themeKey {θ : String} (hθ : θ ≠ "")
    {l : List PositionedProject} (h : ∀ p ∈ l, p.theme = θ) :
    l.filter (fun p => themeKey p.theme == θ) = l := by
  rw [List.filter_eq_self]
  intro p hp
  rw [h p hp]
  simp [themeKey, hθ]

theorem filter_epics_themeKey {θ : String} (hθ : θ ≠ "")
    {l : List PositionedEpic} (h : ∀ e ∈ l, e.theme = θ) :
    l.filter (fun e => themeKey e.theme == θ) = l := by
  rw [List.filter_eq_self]
  intro e he
  rw [h e he]
  simp [themeKey, hθ]

/-- The epic pass changes only `minY`/`maxY`: indices and member lists are
preserved positionally. -/
theorem processGroupEpics_shape (ys : Nat → Int) (c : Int) (E : List PositionedEpic) :
    ((processGroupEpics ys c E).2.2).map (fun u => (u.epicIndex, u.projects)) =
      E.map (fun e => (e.epicIndex, e.projects)) := by
  induction E generalizing ys c with
  | nil => rfl
  | cons e rest ih =>
    by_cases he : e.projects.isEmpty
    · simp only [processGroupEpics, if_pos he, List.map_cons]
      rw [ih]
    · simp only [processGroupEpics, if_neg he, List.map_cons]
      rw [ih]

/-- With pairwise distinct epic indices, looking an original epic up in the
update association list finds its (positionally corresponding) updated form. -/
theorem lookupUpdate_of_shape {E U : List PositionedEpic}
    (hshape : U.map (fun u => (u.epicIndex, u.projects)) =
      E.map (fun e => (e.epicIndex, e.projects)))
    (hidx : (E.map PositionedEpic.epicIndex).Nodup) :
    ∀ e ∈ E, ∃ u ∈ U,
      lookupUpdate (U.map (fun x => (x.epicIndex, x))) e = u ∧
      u.projects = e.projects := by
  induction E generalizing U with
  | nil => intro e he; cases he
  | cons e0 Er ih =>
    cases U with
    | nil => cases hshape
    | cons u0 Ur =>
      simp only [List.map_cons, List.cons.injEq, Prod.mk.injEq] at hshape
      obtain ⟨⟨hidx0, hproj0⟩, hrest⟩ := hshape
      simp only [List.map_cons, List.nodup_cons] at hidx
      obtain ⟨hnotin, hndr⟩ := hidx
      intro e he
      rcases List.mem_cons.mp he with rfl | he2
      · refine ⟨u0, List.mem_cons_self _ _, ?_, hproj0⟩
        unfold lookupUpdate
        simp [List.lookup, hidx0]
      · obtain ⟨u, hu, hlook, hproj⟩ := ih hrest hndr e he2
        refine ⟨u, List.mem_cons_of_mem _ hu, ?_, hproj⟩
        unfold lookupUpdate at hlook ⊢
        have hne : (e.epicIndex == u0.epicIndex) = false := by
          rw [hidx0, beq_eq_false_iff_ne]
          intro hEq
          exact hnotin (hEq ▸ List.mem_map_of_mem PositionedEpic.epicIndex he2)
        simpa [List.lookup, hne] using hlook

/-- `processThemes` on a single theme whose groups are the full inputs. -/
theorem processThemes_single (P : List PositionedProject) (E : List PositionedEpic)
    (θ : String) (ys : Nat → Int) (cY : Int)
    (hPf : P.filter (fun p => themeKey p.theme == θ) = P)
    (hEf : E.filter (fun e => themeKey e.theme == θ) = E) :
    processThemes P E ys cY [θ] =
      ((processGroupEpics (placeRunY ys (cY + 20) P).1 (placeRunY ys (cY + 20) P).2 E).1,
       cY + max (calculateLabelHeight θ + 20)
         (calculateThemeContentHeight P.length (E.map (fun e => some e.projects.length)) + 40),
       [{ name := θ, y := cY,
          height := max (calculateLabelHeight θ + 20)
            (calculateThemeContentHeight P.length
              (E.map (fun e => some e.projects.length)) + 40),
          projects := P ++ E.flatMap PositionedEpic.projects,
          epics := (processGroupEpics (placeRunY ys (cY + 20) P).1
            (placeRunY ys (cY + 20) P).2 E).2.2 }],
       ((processGroupEpics (placeRunY ys (cY + 20) P).1
         (placeRunY ys (cY + 20) P).2 E).2.2).map (fun e => (e.epicIndex, e))) := by
  simp [processThemes, hPf, hEf]

theorem map_y_materialize (F : Nat → Int) (L : List PositionedProject) :
    (L.map (materializeProject F)).map PositionedProject.y = L.map (fun p => F p.ref) := by
  rw [List.map_map]
  rfl

theorem map_y_materializeEpic (F : Nat → Int) (u : PositionedEpic) :
    (materializeEpic F u).projects.map PositionedProject.y =
      u.projects.map (fun m => F m.ref) := by
  simp only [materializeEpic, List.map_map]
  rfl

/-- Claim C5, amended: within a theme block at `blockTop = marginTop` whose
group holds the standalone projects `S` followed by the epic members (the
group contains the members because `allProjects` does), the first placement
pass assigns `blockTop + 20 + 40·i` across the whole group in order, so the
standalone part matches the claim; but the epic pass then re-places the
members continuing the cursor, so the `j`-th member (counting across the
theme's epics) ends at `blockTop + 20 + 40·(s + m + j)` — a `40·m` gap after
the standalone run instead of the claimed `blockTop + 20 + 40·(s + j)` — and
every member appears twice in the block's project list. Each epic's
`minY`/`maxY` do equal the min/max over its own members' final `y`, and with
no epics a single project gets `y = marginTop + 20`, as the claim's scenario
states. -/
theorem C5_member_placement_amended (θ : String) (S : List PositionedProject)
    (E : List PositionedEpic)
    (hθ : θ ≠ "")
    (hPθ : ∀ p ∈ S ++ E.flatMap PositionedEpic.projects, p.theme = θ)
    (hEθ : ∀ e ∈ E, e.theme = θ)
    (hidx : (E.map PositionedEpic.epicIndex).Nodup)
    (hrefs : ((S ++ E.flatMap PositionedEpic.projects).map PositionedProject.ref).Nodup) :
    ((resolveCollisionsWithThemes (S ++ E.flatMap PositionedEpic.projects) E [θ]).themes.map
        (fun b => (b.y, b.projects.map PositionedProject.y)) =
      [(marginTop,
        slotYs (marginTop + 20) S.length
          ++ slotYs (marginTop + 20 + lineHeight * ((S.length : Int)
              + ((E.flatMap PositionedEpic.projects).length : Int)))
              (E.flatMap PositionedEpic.projects).length
          ++ slotYs (marginTop + 20 + lineHeight * ((S.length : Int)
              + ((E.flatMap PositionedEpic.projects).length : Int)))
              (E.flatMap PositionedEpic.projects).length)]) ∧
    ∀ e1 ∈ (resolveCollisionsWithThemes (S ++ E.flatMap PositionedEpic.projects) E [θ]).epics,
      e1.projects ≠ [] →
        e1.minY = some (listMinI (e1.projects.map PositionedProject.y)) ∧
        e1.maxY = some (listMaxI (e1.projects.map PositionedProject.y)) := by
  have hPf := filter_projects_themeKey hθ hPθ
  have hEf := filter_epics_themeKey hθ hEθ
  have hstep := processThemes_single (S ++ E.flatMap PositionedEpic.projects) E θ
      (initialYs (S ++ E.flatMap PositionedEpic.projects)) marginTop hPf hEf
  have hrefs2 := hrefs
  rw [List.map_append, List.nodup_append] at hrefs2
  obtain ⟨hndS, hndM, hdisj⟩ := hrefs2
  unfold resolveCollisionsWithThemes
  rw [hstep]
  dsimp only
  constructor
  · simp only [List.map_cons, List.map_nil]
    rw [map_y_materialize]
    rw [List.map_append, List.map_append]
    have hPmap := placeRunY_map hrefs
      (initialYs (S ++ E.flatMap PositionedEpic.projects)) (marginTop + 20)
    rw [List.map_append, List.length_append, slotYs_append] at hPmap
    have hlen : (S.map (fun p =>
        (placeRunY (initialYs (S ++ E.flatMap PositionedEpic.projects)) (marginTop + 20)
          (S ++ E.flatMap PositionedEpic.projects)).1 p.ref)).length =
        (slotYs (marginTop + 20) S.length).length := by
      rw [List.length_map, slotYs_length]
    obtain ⟨hSmap, -⟩ := List.append_inj hPmap hlen
    have hSfinal : S.map (fun p =>
        (processGroupEpics
          (placeRunY (initialYs (S ++ E.flatMap PositionedEpic.projects)) (marginTop + 20)
            (S ++ E.flatMap PositionedEpic.projects)).1
          (placeRunY (initialYs (S ++ E.flatMap PositionedEpic.projects)) (marginTop + 20)
            (S ++ E.flatMap PositionedEpic.projects)).2 E).1 p.ref) =
        slotYs (marginTop + 20) S.length := by
      rw [← hSmap]
      exact List.map_congr_left (fun p hp =>
        processGroupEpics_untouched
          (fun hmem => hdisj (List.mem_map_of_mem PositionedProject.ref hp) hmem) _ _)
    have hMfinal := processGroupEpics_map hndM
      (placeRunY (initialYs (S ++ E.flatMap PositionedEpic.projects)) (marginTop + 20)
        (S ++ E.flatMap PositionedEpic.projects)).1
      (placeRunY (initialYs (S ++ E.flatMap PositionedEpic.projects)) (marginTop + 20)
        (S ++ E.flatMap PositionedEpic.projects)).2
    have hc : (placeRunY (initialYs (S ++ E.flatMap PositionedEpic.projects)) (marginTop + 20)
        (S ++ E.flatMap PositionedEpic.projects)).2 =
        marginTop + 20 + lineHeight * ((S.length : Int)
          + ((E.flatMap PositionedEpic.projects).length : Int)) := by
      rw [placeRunY_snd, List.length_append]
      push_cast
      ring
    rw [hSfinal, ← hc, hMfinal]
  · intro e1 he1
    obtain ⟨Ek, hEk, rfl⟩ := List.mem_map.mp he1
    obtain ⟨u, hu, hlook, huproj⟩ :=
      lookupUpdate_of_shape
        (processGroupEpics_shape
          (placeRunY (initialYs (S ++ E.flatMap PositionedEpic.projects)) (marginTop + 20)
            (S ++ E.flatMap PositionedEpic.projects)).1
          (placeRunY (initialYs (S ++ E.flatMap PositionedEpic.projects)) (marginTop + 20)
            (S ++ E.flatMap PositionedEpic.projects)).2 E)
        hidx Ek hEk
    rw [hlook]
    intro hne
    have hne2 : u.projects ≠ [] := by
      intro h0
      apply hne
      simp [materializeEpic, h0]
    have hmm := processGroupEpics_entry hndM
      (placeRunY (initialYs (S ++ E.flatMap PositionedEpic.projects)) (marginTop + 20)
        (S ++ E.flatMap PositionedEpic.projects)).1
      (placeRunY (initialYs (S ++ E.flatMap PositionedEpic.projects)) (marginTop + 20)
        (S ++ E.flatMap PositionedEpic.projects)).2
      u hu hne2
    rw [map_y_materializeEpic]
    exact ⟨hmm.1, hmm.2⟩


/-- C5 witness inputs: one standalone project and one single-member epic of
theme `"W"`. -/
def c5wA : PositionedProject :=
  { ref := 0, name := "A", theme := "W", x1 := 0, x2 := 0, x3 := none, y := 0,
    startDate := 0, endDate := 0, tailEndDate := none, epicIndex := none }

/-- C5 witness member project. -/
def c5wB : PositionedProject :=
  { ref := 1, name := "B", theme := "W", x1 := 0, x2 := 0, x3 := none, y := 0,
    startDate := 0, endDate := 0, tailEndDate := none, epicIndex := some 0 }

/-- C5 witness epic. -/
def c5wE : PositionedEpic :=
  { name := "E", theme := "W", projects := [c5wB], x1 := 0, x2 := 0,
    epicIndex := 0, pencilPressure := 1 }

/-- Witness for C5 amended at one standalone project plus a one-member epic. -/
theorem C5_member_placement_amended_witness :
    ((resolveCollisionsWithThemes ([c5wA] ++ [c5wE].flatMap PositionedEpic.projects) [c5wE]
        ["W"]).themes.map (fun b => (b.y, b.projects.map PositionedProject.y)) =
      [(marginTop,
        slotYs (marginTop + 20) [c5wA].length
          ++ slotYs (marginTop + 20 + lineHeight * (([c5wA].length : Int)
              + (([c5wE].flatMap PositionedEpic.projects).length : Int)))
              ([c5wE].flatMap PositionedEpic.projects).length
          ++ slotYs (marginTop + 20 + lineHeight * (([c5wA].length : Int)
              + (([c5wE].flatMap PositionedEpic.projects).length : Int)))
              ([c5wE].flatMap PositionedEpic.projects).length)]) ∧
    ∀ e1 ∈ (resolveCollisionsWithThemes ([c5wA] ++ [c5wE].flatMap PositionedEpic.projects)
        [c5wE] ["W"]).epics,
      e1.projects ≠ [] →
        e1.minY = some (listMinI (e1.projects.map PositionedProject.y)) ∧
        e1.maxY = some (listMaxI (e1.projects.map PositionedProject.y)) :=
  C5_member_placement_amended "W" [c5wA] [c5wE] (by decide) (by decide) (by decide)
    (by decide) (by decide)

end PencilTimeline
